import Mathlib

/-!
Verification of a minimal HTTP/1.1 framing and streaming server written in
TypeScript (src/http_server.ts).  The definitions below are a shallow
embedding of that source: buffers and strings are lists of byte values
(`List Nat`), the asynchronous transport is an explicit list of incoming
chunks, and fallible functions return `Except`.  Each definition mirrors
one source function and keeps its name.
-/

/-- Byte sequences: the model of both Buffer values and JS strings (the
source only manipulates ASCII data on the paths verified here). -/
abbrev Bytes := List Nat

/-- Byte list of a Lean string literal, used to write concrete inputs. -/
def str2b (s : String) : Bytes := s.data.map (fun c => c.toNat)

/-- Protocol error: status code plus message (class HTTPError). -/
structure HTTPError where
  code : Nat
  message : String
deriving DecidableEq

/-- Status code of a failed computation, if it failed. -/
def errCode {α : Type} : Except HTTPError α → Option Nat
  | .error e => some e.code
  | .ok _ => none

/- ==================== DYNAMIC BUFFER ==================== -/

/-- `DynBuf`: a backing array (`data`, capacity = `data.length`) plus the
logical length.  The logical content is the first `length` bytes. -/
structure DynBuf where
  data : Bytes
  length : Nat
deriving DecidableEq

/-- Logical content of a dynamic buffer. -/
def bufContent (buf : DynBuf) : Bytes := buf.data.take buf.length

/-- Model of `src.copy(arr, off)` (Node Buffer.copy): overwrite `arr` from
offset `off` with `d`, truncating `d` at the end of `arr`, leaving the rest
of `arr` unchanged. -/
def writeAt (arr : Bytes) (off : Nat) (d : Bytes) : Bytes :=
  arr.take off ++ d.take (arr.length - off) ++ arr.drop (off + d.length)

/-- The capacity-doubling loop `while (cap < newLen) cap *= 2`, with an
explicit iteration bound.  A bound of `need` iterations always suffices at
the call sites because the capacity starts at 32 or more and at least
doubles each iteration. -/
def growCapAux : Nat → Nat → Nat → Nat
  | 0, cap, _ => cap
  | fuel + 1, cap, need => if cap < need then growCapAux fuel (cap * 2) need else cap

/-- Capacity chosen by `bufPush` when it must grow:
`let cap = Math.max(buf.data.length || 32, 32); while (cap < newLen) cap *= 2`.
`x || 32` maps 0 to 32, and together with the outer max this is `max x 32`. -/
def growCap (cap need : Nat) : Nat := growCapAux need cap need

/-- `bufPush(buf, data)`: append `data`, growing the backing array by
doubling (from a minimum of 32) only when the new length exceeds the
capacity; the grown array receives a copy of the old content, then `data`
is copied at offset `buf.length`. -/
def bufPush (buf : DynBuf) (d : Bytes) : DynBuf :=
  let newLen := buf.length + d.length
  let arr :=
    if buf.data.length < newLen then
      writeAt (List.replicate (growCap (max buf.data.length 32) newLen) 0) 0
        (buf.data.take buf.length)
    else buf.data
  { data := writeAt arr buf.length d, length := newLen }

/-- `bufPop(buf, len)`: shift the bytes in `[len, buf.length)` to offset 0
(`buf.data.copy(buf.data, 0, len, buf.length)`, memmove semantics) and
decrement the logical length. -/
def bufPop (buf : DynBuf) (len : Nat) : DynBuf :=
  { data := writeAt buf.data 0 ((buf.data.take buf.length).drop len),
    length := buf.length - len }

/- ==================== HEADER PARSING ==================== -/

/-- First index at which `pat` occurs in the remaining list (model of
Buffer.indexOf, counting from `i`). -/
def findSubAux (pat : Bytes) : Bytes → Nat → Option Nat
  | [], i => if pat.isPrefixOf ([] : Bytes) then some i else none
  | b :: t, i => if pat.isPrefixOf (b :: t) then some i else findSubAux pat t (i + 1)

/-- First index at which `pat` occurs in `l` (Buffer.indexOf). -/
def findSub (pat l : Bytes) : Option Nat := findSubAux pat l 0

/-- The message terminator bytes of the wire format. -/
def crlf2 : Bytes := [13, 10, 13, 10]

/-- `kMaxHeaderLen = 8 * 1024`. -/
def kMaxHeaderLen : Nat := 8 * 1024

/-- `splitLines`: split on the two-byte sequence CRLF, exactly as
`data.toString().split("\r\n")` does (leftmost-first, keeping empty
segments, total: at least one segment). -/
def splitLines : Bytes → List Bytes
  | [] => [[]]
  | 13 :: 10 :: t => [] :: splitLines t
  | b :: t =>
    match splitLines t with
    | [] => [[b]]
    | s :: ss => (b :: s) :: ss

/-- ASCII whitespace recognized by JS trim on the data in scope. -/
def isWs (c : Nat) : Bool := c = 32 || c = 9 || c = 10 || c = 13 || c = 11 || c = 12

/-- Model of String.prototype.trim. -/
def trimBytes (l : Bytes) : Bytes :=
  ((l.dropWhile isWs).reverse.dropWhile isWs).reverse

/-- Model of String.prototype.split with a one-character separator:
splits at every occurrence, keeping empty segments. -/
def splitByte (c : Nat) : Bytes → List Bytes
  | [] => [[]]
  | b :: t =>
    if b = c then [] :: splitByte c t
    else
      match splitByte c t with
      | [] => [[b]]
      | s :: ss => (b :: s) :: ss

/-- The literal version prefix. -/
def httpSlash : Bytes := str2b "HTTP/"

/-- `parseRequestLine`: trim, split on spaces, demand exactly three
tokens, demand the version token to start with HTTP/, keep the suffix. -/
def parseRequestLine (line : Bytes) : Except HTTPError (Bytes × Bytes × Bytes) :=
  match splitByte 32 (trimBytes line) with
  | [m, u, v] =>
    if httpSlash.isPrefixOf v then .ok (m, u, v.drop 5)
    else .error ⟨400, "bad version"⟩
  | _ => .error ⟨400, "bad request line"⟩

/-- Membership in the HTTP token character class of the source regex
(letters, digits, and the 15 listed punctuation characters). -/
def isTokenChar (c : Nat) : Bool :=
  (48 ≤ c && c ≤ 57) || (65 ≤ c && c ≤ 90) || (97 ≤ c && c ≤ 122) ||
  c ∈ [33, 35, 36, 37, 38, 39, 42, 43, 45, 46, 94, 95, 96, 124, 126]

/-- First index of byte `c` (String.prototype.indexOf; `none` models -1). -/
def indexOfByte (c : Nat) : Bytes → Option Nat
  | [] => none
  | b :: t => if b = c then some 0 else (indexOfByte c t).map (· + 1)

/-- `validateHeader`: a colon must exist, not at position 0 and not as the
last character, and the name before it must match the token regex. -/
def validateHeader (line : Bytes) : Bool :=
  match indexOfByte 58 line with
  | none => false
  | some i =>
    if i = 0 then false
    else if i + 1 = line.length then false
    else (line.take i).all isTokenChar

/-- The header-collecting loop of `parseHTTPReq`: validate each line in
order, failing with 400 at the first invalid one. -/
def collectHeaders : List Bytes → Except HTTPError (List Bytes)
  | [] => .ok []
  | h :: t =>
    if validateHeader h then
      match collectHeaders t with
      | .error e => .error e
      | .ok hs => .ok (h :: hs)
    else .error ⟨400, "bad field"⟩

/-- Parsed request: method, target, version suffix, raw header lines. -/
structure HTTPReq where
  method : Bytes
  uri : Bytes
  version : Bytes
  headers : List Bytes
deriving DecidableEq

/-- `parseHTTPReq`: split the block into lines, parse the request line
from the first, validate lines `1 .. lines.length - 2` as headers. -/
def parseHTTPReq (data : Bytes) : Except HTTPError HTTPReq :=
  let lines := splitLines data
  match parseRequestLine (lines.headD []) with
  | .error e => .error e
  | .ok (m, u, v) =>
    match collectHeaders ((lines.drop 1).take (lines.length - 2)) with
    | .error e => .error e
    | .ok hs => .ok ⟨m, u, v, hs⟩

/-- `cutMessage`: look for the terminator in the buffered view; absent and
at or over the cap is a 413, absent under the cap is need-more-data
(`none`); present, parse `[0, idx+4)` and pop those bytes. -/
def cutMessage (buf : DynBuf) : Except HTTPError (Option (HTTPReq × DynBuf)) :=
  let view := bufContent buf
  match findSub crlf2 view with
  | none =>
    if kMaxHeaderLen ≤ buf.length then .error ⟨413, "header too large"⟩
    else .ok none
  | some idx =>
    match parseHTTPReq (view.take (idx + 4)) with
    | .error e => .error e
    | .ok msg => .ok (some (msg, bufPop buf (idx + 4)))

/- ==================== HEADER LOOKUP ==================== -/

/-- ASCII lowercasing (String.prototype.toLowerCase on the data in scope). -/
def toLowerByte (c : Nat) : Nat := if 65 ≤ c ∧ c ≤ 90 then c + 32 else c

/-- `fieldGet`: first header whose name (before the first colon, trimmed,
lowercased) equals the lowercased key wins; its trimmed value is returned.
Lines without a colon, or with it at position 0, are skipped. -/
def fieldGet (key : Bytes) : List Bytes → Option Bytes
  | [] => none
  | h :: t =>
    match indexOfByte 58 h with
    | none => fieldGet key t
    | some i =>
      if i = 0 then fieldGet key t
      else if (trimBytes (h.take i)).map toLowerByte = key.map toLowerByte then
        some (trimBytes (h.drop (i + 1)))
      else fieldGet key t

/-- `parseDec`: model of `parseInt(str, 10)` — skip leading whitespace,
read an optional sign, then the longest digit prefix; no digits is NaN
(`none`), trailing junk is ignored. -/
def parseDec (s : Bytes) : Option Int :=
  let s1 := s.dropWhile isWs
  let signAndRest : Bool × Bytes :=
    match s1 with
    | 45 :: t => (true, t)
    | 43 :: t => (false, t)
    | _ => (false, s1)
  let digits := signAndRest.2.takeWhile (fun c => 48 ≤ c && c ≤ 57)
  if digits = [] then none
  else
    let v : Int := Int.ofNat (digits.foldl (fun a c => a * 10 + (c - 48)) 0)
    some (if signAndRest.1 then -v else v)

/-- Header key Content-Length. -/
def clKey : Bytes := str2b "Content-Length"

/-- Header key Transfer-Encoding. -/
def teKey : Bytes := str2b "Transfer-Encoding"

/-- `fieldGet(req.headers, "Transfer-Encoding")?.equals(Buffer.from("chunked")) ?? false`. -/
def chunkedTE (headers : List Bytes) : Bool :=
  match fieldGet teKey headers with
  | some v => v = str2b "chunked"
  | none => false

/- ==================== BODY READER (Content-Length) ==================== -/

/-- The state of the stream built by `readerFromConLength`: the `length`
field exposed to callers (set once) and the mutable `remain` captured by
the closure. -/
structure CLReader where
  length : Nat
  remain : Nat
deriving DecidableEq

/-- `readerFromConLength(conn, buf, remain)` publishes `length = remain`
and starts with `remain` bytes to deliver. -/
def readerFromConLength (remain : Nat) : CLReader := ⟨remain, remain⟩

/-- The refill step inside the reader: when the shared buffer is empty,
perform exactly one transport read and push it; an empty read result
(transport end-of-stream, modelled by an exhausted `incoming` list or an
explicit empty chunk) is a fatal mid-body error.  The source pushes the
chunk before testing it for emptiness; pushing an empty chunk leaves the
buffer unchanged, so the order is preserved here as well. -/
def clFill (buf : DynBuf) (incoming : List Bytes) : Except String (DynBuf × List Bytes) :=
  if buf.length = 0 then
    let d := incoming.headD []
    let buf2 := bufPush buf d
    if d.length = 0 then .error "Unexpected EOF in body"
    else .ok (buf2, incoming.tail)
  else .ok (buf, incoming)

/-- One pull of the length-bounded stream: `remain == 0` yields the empty
chunk immediately; otherwise refill if needed, then consume
`min(buf.length, remain)` bytes from the front of the shared buffer. -/
def clRead (r : CLReader) (buf : DynBuf) (incoming : List Bytes) :
    Except String (Bytes × CLReader × DynBuf × List Bytes) :=
  if r.remain = 0 then .ok ([], r, buf, incoming)
  else
    match clFill buf incoming with
    | .error e => .error e
    | .ok (buf2, inc2) =>
      let consume := min buf2.length r.remain
      .ok ((bufContent buf2).take consume, ⟨r.length, r.remain - consume⟩,
        bufPop buf2 consume, inc2)

/-- A consumer that pulls the stream until an empty chunk signals
completion, collecting the non-empty chunks (the loop of the response
writer); `fuel` bounds the number of pulls. -/
def clPulls (fuel : Nat) (r : CLReader) (buf : DynBuf) (incoming : List Bytes) :
    Except String (List Bytes × CLReader × DynBuf × List Bytes) :=
  match fuel with
  | 0 => .ok ([], r, buf, incoming)
  | fuel + 1 =>
    match clRead r buf incoming with
    | .error e => .error e
    | .ok (chunk, r2, buf2, inc2) =>
      if chunk.length = 0 then .ok ([], r2, buf2, inc2)
      else
        match clPulls fuel r2 buf2 inc2 with
        | .error e => .error e
        | .ok (chunks, r3, buf3, inc3) => .ok (chunk :: chunks, r3, buf3, inc3)

/- ==================== BODY READER FACTORY ==================== -/

/-- The tail of `readerFromReq` after the Content-Length parse (split out
of the translation for proof convenience): `bodyLen` is the parsed value,
or -1 when the field is absent. -/
def readerFromReqCore (req : HTTPReq) (bodyLen : Int) : Except HTTPError CLReader :=
  -- bodyAllowed = !(method == GET || method == HEAD)
  if (req.method = str2b "GET" ∨ req.method = str2b "HEAD") ∧
      (0 < bodyLen ∨ chunkedTE req.headers = true) then
    .error ⟨400, "HTTP body not allowed"⟩
  else
    let len2 : Int :=
      if req.method = str2b "GET" ∨ req.method = str2b "HEAD" then 0 else bodyLen
    if 0 ≤ len2 then .ok (readerFromConLength len2.toNat)
    else if chunkedTE req.headers = true then .error ⟨501, "chunked not implemented"⟩
    else .error ⟨501, "unknown body type"⟩

/-- `readerFromReq`: parse the Content-Length field if present (NaN is a
400), then dispatch on method, declared length and Transfer-Encoding. -/
def readerFromReq (req : HTTPReq) : Except HTTPError CLReader :=
  match fieldGet clKey req.headers with
  | some v =>
    match parseDec v with
    | none => .error ⟨400, "bad Content-Length"⟩
    | some n => readerFromReqCore req n
  | none => readerFromReqCore req (-1)

/- ==================== IN-MEMORY BODY READER ==================== -/

/-- State of the stream built by `readerFromMemory`: its payload and the
`done` flag of the closure. -/
structure MemReader where
  data : Bytes
  done : Bool
deriving DecidableEq

/-- `readerFromMemory(data)`: length is the payload length, `done` starts
false. -/
def readerFromMemory (d : Bytes) : MemReader := ⟨d, false⟩

/-- One pull of the in-memory stream, exactly as the source behaves: the
line `if (done) Buffer.from("");` computes an empty buffer but does not
return it, so every call — first or repeated — sets `done` and returns the
full payload. -/
def memRead (r : MemReader) : Bytes × MemReader :=
  (r.data, { r with done := true })

/- ==================== RESPONSE HANDLER AND SERVER LOOP ==================== -/

/-- A response body is either the forwarded request stream or an in-memory
payload. -/
inductive BodyR
  | conn (r : CLReader)
  | mem (r : MemReader)

/-- Response: status code, raw header lines, body stream. -/
structure HTTPRes where
  code : Nat
  headers : List Bytes
  body : BodyR

/-- `HandleReq`: /echo forwards the request body, anything else answers
with the fixed in-memory greeting; code 200 with one Server header. -/
def HandleReq (req : HTTPReq) (body : CLReader) : HTTPRes :=
  { code := 200,
    headers := [str2b "Server:my_first_http_server"],
    body := if req.uri = str2b "/echo" then .conn body
            else .mem (readerFromMemory (str2b "Hello World.\n")) }

/-- `serveClient`: the per-connection loop, with `fuel` bounding the
number of iterations and `incoming` the list of transport reads (an
exhausted list models end-of-stream, whose read yields the empty chunk).
The returned list collects every transport write the loop performs: the
source loop contains no `soWrite` call — the Response obtained from
`HandleReq` is discarded — so every exit path returns an empty trace. -/
def serveClient : Nat → DynBuf → List Bytes → Except HTTPError (List Bytes)
  | 0, _, _ => .ok []
  | fuel + 1, buf, incoming =>
    match cutMessage buf with
    | .error e => .error e
    | .ok none =>
      let data := incoming.headD []
      let buf2 := bufPush buf data
      if data.length = 0 ∧ buf2.length = 0 then .ok []
      else if data.length = 0 then .error ⟨400, "Unexpected EOF"⟩
      else serveClient fuel buf2 incoming.tail
    | .ok (some (msg, buf2)) =>
      match readerFromReq msg with
      | .error e => .error e
      | .ok reqBody =>
        let _res := HandleReq msg reqBody
        serveClient fuel buf2 incoming

/- ==================== BUFFER LEMMAS ==================== -/

theorem writeAt_length (arr : Bytes) (off : Nat) (d : Bytes)
    (h : off + d.length ≤ arr.length) : (writeAt arr off d).length = arr.length := by
  unfold writeAt
  rw [List.length_append, List.length_append, List.length_take, List.length_drop,
    List.length_take]
  omega

theorem writeAt_take_append (arr : Bytes) (off : Nat) (d : Bytes)
    (h : off + d.length ≤ arr.length) :
    (writeAt arr off d).take (off + d.length) = arr.take off ++ d := by
  unfold writeAt
  rw [List.take_of_length_le (by omega : d.length ≤ arr.length - off),
    List.take_left' (by rw [List.length_append, List.length_take]; omega)]

theorem growCapAux_spec (fuel : Nat) : ∀ cap need : Nat, 0 < cap → need ≤ cap * 2 ^ fuel →
    need ≤ growCapAux fuel cap need ∧ cap ≤ growCapAux fuel cap need ∧
    (∃ k, growCapAux fuel cap need = cap * 2 ^ k) ∧
    (growCapAux fuel cap need = cap ∨ growCapAux fuel cap need < 2 * need) := by
  induction fuel with
  | zero =>
    intro cap need hc h
    simp only [growCapAux, pow_zero, mul_one] at *
    exact ⟨h, le_refl _, ⟨0, by ring⟩, Or.inl (by trivial)⟩
  | succ fuel ih =>
    intro cap need hc h
    unfold growCapAux
    by_cases hlt : cap < need
    · simp only [hlt, if_true]
      have h2 : need ≤ cap * 2 * 2 ^ fuel := by
        calc need ≤ cap * 2 ^ (fuel + 1) := h
        _ = cap * 2 * 2 ^ fuel := by ring
      obtain ⟨ha, hb, ⟨k, hk⟩, hcase⟩ := ih (cap * 2) need (by omega) h2
      refine ⟨ha, by omega, ⟨k + 1, by rw [hk]; ring⟩, ?_⟩
      rcases hcase with hcase | hcase
      · right; rw [hcase]; omega
      · right; exact hcase
    · simp only [hlt, if_false]
      exact ⟨by omega, le_refl _, ⟨0, by ring⟩, Or.inl (by trivial)⟩

theorem growCap_spec (cap need : Nat) (hc : 0 < cap) :
    need ≤ growCap cap need ∧ cap ≤ growCap cap need ∧
    (∃ k, growCap cap need = cap * 2 ^ k) ∧
    (growCap cap need = cap ∨ growCap cap need < 2 * need) :=
  growCapAux_spec need cap need hc
    (le_trans (le_of_lt (Nat.lt_two_pow need)) (Nat.le_mul_of_pos_left _ hc))

theorem bufContent_length (buf : DynBuf) (hwf : buf.length ≤ buf.data.length) :
    (bufContent buf).length = buf.length := by
  rw [bufContent, List.length_take]; omega

theorem bufPush_spec (buf : DynBuf) (d : Bytes) (hwf : buf.length ≤ buf.data.length) :
    bufContent (bufPush buf d) = bufContent buf ++ d ∧
    buf.length + d.length ≤ (bufPush buf d).data.length ∧
    (bufPush buf d).length = buf.length + d.length := by
  have hcl : (buf.data.take buf.length).length = buf.length := bufContent_length buf hwf
  unfold bufPush
  by_cases hg : buf.data.length < buf.length + d.length
  · simp only [hg, if_true]
    have hmax : 0 < max buf.data.length 32 := by omega
    obtain ⟨hcap, -, -, -⟩ :=
      growCap_spec (max buf.data.length 32) (buf.length + d.length) hmax
    have harrlen :
        (writeAt (List.replicate (growCap (max buf.data.length 32)
            (buf.length + d.length)) 0) 0 (buf.data.take buf.length)).length =
          growCap (max buf.data.length 32) (buf.length + d.length) := by
      rw [writeAt_length]
      · rw [List.length_replicate]
      · rw [List.length_replicate]; omega
    have harrtake :
        (writeAt (List.replicate (growCap (max buf.data.length 32)
            (buf.length + d.length)) 0) 0 (buf.data.take buf.length)).take buf.length =
          buf.data.take buf.length := by
      have := writeAt_take_append
        (List.replicate (growCap (max buf.data.length 32) (buf.length + d.length)) 0)
        0 (buf.data.take buf.length)
        (by rw [List.length_replicate]; omega)
      rw [Nat.zero_add, hcl] at this
      rw [this, List.take_zero, List.nil_append]
    refine ⟨?_, ?_, by trivial⟩
    · show (writeAt _ buf.length d).take (buf.length + d.length) = _
      rw [writeAt_take_append _ _ _ (by rw [harrlen]; omega), harrtake]
      rfl
    · show buf.length + d.length ≤ (writeAt _ buf.length d).length
      rw [writeAt_length _ _ _ (by rw [harrlen]; omega), harrlen]
      omega
  · simp only [hg, if_false]
    refine ⟨?_, ?_, by trivial⟩
    · show (writeAt buf.data buf.length d).take (buf.length + d.length) = _
      rw [writeAt_take_append _ _ _ (by omega)]
      rfl
    · show buf.length + d.length ≤ (writeAt buf.data buf.length d).length
      rw [writeAt_length _ _ _ (by omega)]
      omega

theorem bufPop_spec (buf : DynBuf) (n : Nat) (hwf : buf.length ≤ buf.data.length) :
    bufContent (bufPop buf n) = (bufContent buf).drop n ∧
    (bufPop buf n).data.length = buf.data.length ∧
    (bufPop buf n).length = buf.length - n := by
  have hcl : (buf.data.take buf.length).length = buf.length := bufContent_length buf hwf
  have hs : ((buf.data.take buf.length).drop n).length = buf.length - n := by
    rw [List.length_drop, hcl]
  refine ⟨?_, ?_, rfl⟩
  · show (writeAt buf.data 0 _).take (buf.length - n) = _
    have := writeAt_take_append buf.data 0 ((buf.data.take buf.length).drop n)
      (by rw [hs]; omega)
    rw [Nat.zero_add, hs] at this
    rw [this, List.take_zero, List.nil_append]
    rfl
  · show (writeAt buf.data 0 _).length = buf.data.length
    rw [writeAt_length _ _ _ (by rw [hs]; omega)]

theorem bufPush_wf (buf : DynBuf) (d : Bytes) (hwf : buf.length ≤ buf.data.length) :
    (bufPush buf d).length ≤ (bufPush buf d).data.length := by
  obtain ⟨-, h2, h3⟩ := bufPush_spec buf d hwf
  omega

theorem bufPop_wf (buf : DynBuf) (n : Nat) (hwf : buf.length ≤ buf.data.length) :
    (bufPop buf n).length ≤ (bufPop buf n).data.length := by
  obtain ⟨-, h2, h3⟩ := bufPop_spec buf n hwf
  omega

theorem bufPush_data_length (buf : DynBuf) (d : Bytes) (hwf : buf.length ≤ buf.data.length) :
    (bufPush buf d).data.length =
      if buf.data.length < buf.length + d.length then
        growCap (max buf.data.length 32) (buf.length + d.length)
      else buf.data.length := by
  have hcl : (buf.data.take buf.length).length = buf.length := bufContent_length buf hwf
  unfold bufPush
  by_cases hg : buf.data.length < buf.length + d.length
  · simp only [hg, if_true]
    obtain ⟨hcap, -, -, -⟩ :=
      growCap_spec (max buf.data.length 32) (buf.length + d.length) (by omega)
    have harrlen :
        (writeAt (List.replicate (growCap (max buf.data.length 32)
            (buf.length + d.length)) 0) 0 (buf.data.take buf.length)).length =
          growCap (max buf.data.length 32) (buf.length + d.length) := by
      rw [writeAt_length]
      · rw [List.length_replicate]
      · rw [List.length_replicate]; omega
    rw [writeAt_length _ _ _ (by rw [harrlen]; omega), harrlen]
  · simp only [hg, if_false]
    exact writeAt_length _ _ _ (by omega)

/-- Claim C9: pushing `d` and then popping `n ≤ length + d.length` bytes
leaves the logical content equal to the old content followed by `d` with
its first `n` bytes dropped (order preserved); and the capacity is
unchanged when it already suffices, otherwise it becomes a power-of-two
multiple of `max capacity 32` that covers the new length, minimal in the
sense that it is either the starting value `max capacity 32` itself or
less than twice the new length. -/
theorem bufPush_bufPop_spec (buf : DynBuf) (d : Bytes) (n : Nat)
    (hwf : buf.length ≤ buf.data.length) (hn : n ≤ buf.length + d.length) :
    bufContent (bufPop (bufPush buf d) n) = (bufContent buf ++ d).drop n ∧
    (buf.length + d.length ≤ buf.data.length →
      (bufPush buf d).data.length = buf.data.length) ∧
    (buf.data.length < buf.length + d.length →
      buf.length + d.length ≤ (bufPush buf d).data.length ∧
      (∃ k, (bufPush buf d).data.length = max buf.data.length 32 * 2 ^ k) ∧
      ((bufPush buf d).data.length = max buf.data.length 32 ∨
        (bufPush buf d).data.length < 2 * (buf.length + d.length))) := by
  obtain ⟨hc, hl, hlen⟩ := bufPush_spec buf d hwf
  have hwf2 := bufPush_wf buf d hwf
  refine ⟨?_, ?_, ?_⟩
  · rw [(bufPop_spec (bufPush buf d) n hwf2).1, hc]
  · intro h
    rw [bufPush_data_length buf d hwf, if_neg (by omega)]
  · intro h
    rw [bufPush_data_length buf d hwf, if_pos h]
    obtain ⟨h1, h2, h3, h4⟩ :=
      growCap_spec (max buf.data.length 32) (buf.length + d.length) (by omega)
    exact ⟨h1, h3, h4⟩

/-- Witness for C9 at a concrete buffer. -/
theorem bufPush_bufPop_spec_witness :
    ((2 : Nat) ≤ 8 ∧ (3 : Nat) ≤ 2 + 4) ∧
    bufContent (bufPop (bufPush ⟨[1, 2, 0, 0, 0, 0, 0, 0], 2⟩ [9, 9, 9, 9]) 3) =
      (bufContent ⟨[1, 2, 0, 0, 0, 0, 0, 0], 2⟩ ++ [9, 9, 9, 9]).drop 3 :=
  ⟨⟨by decide, by decide⟩,
    (bufPush_bufPop_spec ⟨[1, 2, 0, 0, 0, 0, 0, 0], 2⟩ [9, 9, 9, 9] 3
      (by decide) (by decide)).1⟩

/- ==================== FRAMER CAP (C5) ==================== -/

/-- Claim C5: on a buffer whose content has no terminator, the framer
fails with 413 at or above the 8192-byte cap and reports need-more-data
(`none`, not an error) below it; in both cases it consults only the
buffer, never the transport. -/
theorem cutMessage_no_terminator (buf : DynBuf)
    (hterm : findSub crlf2 (bufContent buf) = none) :
    (kMaxHeaderLen ≤ buf.length → cutMessage buf = .error ⟨413, "header too large"⟩) ∧
    (buf.length < kMaxHeaderLen → cutMessage buf = .ok none) := by
  simp only [cutMessage, hterm]
  refine ⟨fun h => ?_, fun h => ?_⟩
  · rw [if_pos h]
  · rw [if_neg (by omega)]

theorem findSubAux_crlf2_replicate (n : Nat) :
    ∀ i, findSubAux crlf2 (List.replicate n 97) i = none := by
  induction n with
  | zero => intro i; simp [findSubAux, crlf2, List.isPrefixOf]
  | succ n ih =>
    intro i
    rw [List.replicate_succ]
    simp only [findSubAux, crlf2, List.isPrefixOf]
    norm_num
    exact ih (i + 1)

/-- Witness for C5: 8192 buffered bytes, no terminator, immediate 413. -/
theorem cutMessage_no_terminator_witness :
    findSub crlf2 (bufContent ⟨List.replicate 8192 97, 8192⟩) = none ∧
    cutMessage ⟨List.replicate 8192 97, 8192⟩ = .error ⟨413, "header too large"⟩ := by
  have hterm : findSub crlf2 (bufContent ⟨List.replicate 8192 97, 8192⟩) = none := by
    show findSub crlf2 ((List.replicate 8192 97).take 8192) = none
    rw [List.take_of_length_le (by simp only [List.length_replicate, le_refl])]
    exact findSubAux_crlf2_replicate 8192 0
  exact ⟨hterm,
    (cutMessage_no_terminator ⟨List.replicate 8192 97, 8192⟩ hterm).1
      (by norm_num [kMaxHeaderLen])⟩

/- ==================== LENGTH-BOUNDED STREAM (C10, C6) ==================== -/

/-- Claim C10: with `remain = r > 0`, one pull consumes exactly
`min(buffered length, r)` bytes from the front of the shared buffer —
never more than `r` — handing back that prefix as the chunk and leaving
the remaining buffered bytes, in order, for the next framing step.  When
the buffer is empty, exactly one transport read is performed first and the
same accounting applies to the freshly pushed chunk. -/
theorem clRead_consumes_min (L r : Nat) (buf : DynBuf) (incoming : List Bytes)
    (hwf : buf.length ≤ buf.data.length) (hr : 0 < r) :
    (0 < buf.length →
      clRead ⟨L, r⟩ buf incoming =
        .ok ((bufContent buf).take (min buf.length r), ⟨L, r - min buf.length r⟩,
          bufPop buf (min buf.length r), incoming) ∧
      bufContent (bufPop buf (min buf.length r)) =
        (bufContent buf).drop (min buf.length r)) ∧
    (buf.length = 0 → ∀ c rest, incoming = c :: rest → c ≠ [] →
      clRead ⟨L, r⟩ buf incoming =
        .ok (c.take (min c.length r), ⟨L, r - min c.length r⟩,
          bufPop (bufPush buf c) (min c.length r), rest) ∧
      bufContent (bufPop (bufPush buf c) (min c.length r)) =
        c.drop (min c.length r)) := by
  constructor
  · intro hb
    have hfill : clFill buf incoming = .ok (buf, incoming) := by
      unfold clFill
      rw [if_neg (by omega)]
    constructor
    · unfold clRead
      rw [if_neg (by simpa using Nat.pos_iff_ne_zero.mp hr), hfill]
    · exact (bufPop_spec buf (min buf.length r) hwf).1
  · intro hb c rest hinc hc
    have hcpos : 0 < c.length := List.length_pos.mpr hc
    obtain ⟨hcont, hle, hlen⟩ := bufPush_spec buf c hwf
    have hbc : bufContent buf = [] := by
      unfold bufContent
      rw [hb, List.take_zero]
    have hcont2 : bufContent (bufPush buf c) = c := by rw [hcont, hbc, List.nil_append]
    have hlen2 : (bufPush buf c).length = c.length := by omega
    have hfill : clFill buf incoming = .ok (bufPush buf c, rest) := by
      unfold clFill
      rw [hinc, if_pos hb]
      simp only [List.headD_cons, List.tail_cons]
      rw [if_neg (by omega)]
    have hwf2 := bufPush_wf buf c hwf
    constructor
    · unfold clRead
      rw [if_neg (by simpa using Nat.pos_iff_ne_zero.mp hr), hfill]
      simp only [hlen2, hcont2]
    · rw [(bufPop_spec (bufPush buf c) (min c.length r) hwf2).1, hcont2]

/-- Witness for C10: five buffered bytes, three remaining: the pull
consumes exactly three bytes and leaves two. -/
theorem clRead_consumes_min_witness :
    ((5 : Nat) ≤ 5 ∧ (0 : Nat) < 3 ∧ (0 : Nat) < 5) ∧
    clRead ⟨5, 3⟩ ⟨[1, 2, 3, 4, 5], 5⟩ [] =
      .ok ((bufContent ⟨[1, 2, 3, 4, 5], 5⟩).take (min 5 3), ⟨5, 3 - min 5 3⟩,
        bufPop ⟨[1, 2, 3, 4, 5], 5⟩ (min 5 3), []) :=
  ⟨⟨by decide, by decide, by decide⟩,
    ((clRead_consumes_min 5 3 ⟨[1, 2, 3, 4, 5], 5⟩ [] (by decide) (by decide)).1
      (by decide)).1⟩

theorem clRead_chunk (L rem : Nat) (buf : DynBuf) (c : Bytes) (inc2 : List Bytes)
    (hwf : buf.length ≤ buf.data.length) (hb : buf.length = 0)
    (hc : c ≠ []) (hcr : c.length ≤ rem) :
    clRead ⟨L, rem⟩ buf (c :: inc2) =
      .ok (c, ⟨L, rem - c.length⟩, bufPop (bufPush buf c) c.length, inc2) ∧
    (bufPop (bufPush buf c) c.length).length = 0 ∧
    (bufPop (bufPush buf c) c.length).length ≤
      (bufPop (bufPush buf c) c.length).data.length := by
  have hcpos : 0 < c.length := List.length_pos.mpr hc
  obtain ⟨hcont, hle, hlen⟩ := bufPush_spec buf c hwf
  have hbc : bufContent buf = [] := by
    unfold bufContent
    rw [hb, List.take_zero]
  have hcont2 : bufContent (bufPush buf c) = c := by rw [hcont, hbc, List.nil_append]
  have hlen2 : (bufPush buf c).length = c.length := by omega
  have hwf2 := bufPush_wf buf c hwf
  have hfill : clFill buf (c :: inc2) = .ok (bufPush buf c, inc2) := by
    unfold clFill
    rw [if_pos hb]
    simp only [List.headD_cons, List.tail_cons]
    rw [if_neg (by omega)]
  have hrem : ¬ (CLReader.mk L rem).remain = 0 := by
    show ¬ rem = 0
    omega
  refine ⟨?_, ?_, bufPop_wf _ _ hwf2⟩
  · unfold clRead
    rw [if_neg hrem, hfill]
    simp only [hlen2, hcont2, Nat.min_eq_left hcr, List.take_length]
  · have := (bufPop_spec (bufPush buf c) c.length hwf2).2.2
    omega

theorem clPulls_aux (cs : List Bytes) :
    ∀ (fuel L : Nat) (buf : DynBuf) (rest : List Bytes),
      (∀ c ∈ cs, c ≠ ([] : Bytes)) → buf.length = 0 → buf.length ≤ buf.data.length →
      cs.flatten.length < fuel →
      ∃ buf2 : DynBuf, clPulls fuel ⟨L, cs.flatten.length⟩ buf (cs ++ rest) =
          .ok (cs, ⟨L, 0⟩, buf2, rest) ∧ buf2.length = 0 ∧
          buf2.length ≤ buf2.data.length := by
  induction cs with
  | nil =>
    intro fuel L buf rest _ hb hwf hfuel
    obtain ⟨f, rfl⟩ : ∃ f, fuel = f + 1 := ⟨fuel - 1, by omega⟩
    refine ⟨buf, ?_, hb, hwf⟩
    simp [clPulls, clRead]
  | cons c cs ih =>
    intro fuel L buf rest hne hb hwf hfuel
    have hcne : c ≠ [] := hne c (by simp)
    have hcpos : 0 < c.length := List.length_pos.mpr hcne
    have hN : (c :: cs).flatten.length = c.length + cs.flatten.length := by
      rw [List.flatten_cons, List.length_append]
    obtain ⟨f, rfl⟩ : ∃ f, fuel = f + 1 := ⟨fuel - 1, by omega⟩
    obtain ⟨hread, h0, hwf3⟩ :=
      clRead_chunk L ((c :: cs).flatten.length) buf c (cs ++ rest) hwf hb hcne (by omega)
    obtain ⟨buf2, heq, h02, hwf4⟩ :=
      ih f L (bufPop (bufPush buf c) c.length) rest
        (fun x hx => hne x (List.mem_cons_of_mem _ hx)) h0 hwf3 (by omega)
    refine ⟨buf2, ?_, h02, hwf4⟩
    show clPulls (f + 1) ⟨L, (c :: cs).flatten.length⟩ buf (c :: (cs ++ rest)) = _
    unfold clPulls
    rw [hread]
    simp only [if_neg (by omega : ¬ c.length = 0)]
    have hsub : (c :: cs).flatten.length - c.length = cs.flatten.length := by omega
    rw [hsub, heq]

/-- Claim C6: for a declared length `N` equal to the total size of the
body, however the transport splits the `N` body bytes into (non-empty)
read chunks `cs`, pulling the length-bounded stream until an empty chunk
yields exactly those chunks (their concatenation is the `N` body bytes),
leaves any further transport data untouched, and ends with the reader at
`remain = 0` while its published `length` field still equals `N`; one more
pull then yields the empty chunk and changes nothing. -/
theorem readerFromConLength_streams (cs rest : List Bytes) (buf : DynBuf) (fuel : Nat)
    (hne : ∀ c ∈ cs, c ≠ ([] : Bytes)) (hb : buf.length = 0)
    (hwf : buf.length ≤ buf.data.length) (hfuel : cs.flatten.length < fuel) :
    ∃ buf2 : DynBuf,
      clPulls fuel (readerFromConLength cs.flatten.length) buf (cs ++ rest) =
        .ok (cs, ⟨cs.flatten.length, 0⟩, buf2, rest) ∧
      clRead ⟨cs.flatten.length, 0⟩ buf2 rest =
        .ok ([], ⟨cs.flatten.length, 0⟩, buf2, rest) := by
  obtain ⟨buf2, heq, -, -⟩ :=
    clPulls_aux cs fuel cs.flatten.length buf rest hne hb hwf hfuel
  refine ⟨buf2, heq, ?_⟩
  unfold clRead
  rw [if_pos rfl]

/-- Witness for C6: body bytes 104 105 33 arriving as two reads, with a
later transport chunk left untouched. -/
theorem readerFromConLength_streams_witness :
    ((∀ c ∈ ([[104, 105], [33]] : List Bytes), c ≠ ([] : Bytes)) ∧
      (DynBuf.mk [] 0).length = 0 ∧
      (DynBuf.mk [] 0).length ≤ (DynBuf.mk [] 0).data.length ∧
      ([[104, 105], [33]] : List Bytes).flatten.length < 4) ∧
    ∃ buf2 : DynBuf,
      clPulls 4 (readerFromConLength ([[104, 105], [33]] : List Bytes).flatten.length)
          ⟨[], 0⟩ ([[104, 105], [33]] ++ [[7]]) =
        .ok ([[104, 105], [33]], ⟨([[104, 105], [33]] : List Bytes).flatten.length, 0⟩,
          buf2, [[7]]) ∧
      clRead ⟨([[104, 105], [33]] : List Bytes).flatten.length, 0⟩ buf2 [[7]] =
        .ok ([], ⟨([[104, 105], [33]] : List Bytes).flatten.length, 0⟩, buf2, [[7]]) :=
  ⟨⟨by decide, by decide, by decide, by decide⟩,
    readerFromConLength_streams [[104, 105], [33]] [[7]] ⟨[], 0⟩ 4
      (by decide) (by decide) (by decide) (by decide)⟩

/- ==================== BODY READER FACTORY (C3, C4, C8) ==================== -/

/-- Counterexample to C3 as stated: a POST declaring both
Transfer-Encoding: chunked and Content-Length: 3 is not rejected with 501;
the Content-Length branch is tested first and returns a bounded reader. -/
theorem readerFromReq_chunked_with_length_ok :
    readerFromReq ⟨str2b "POST", str2b "/", str2b "1.1",
      [str2b "Content-Length: 3", str2b "Transfer-Encoding: chunked"]⟩ =
      .ok (readerFromConLength 3) := by rfl

/-- Claim C3 (amended): on a body-allowed method with Transfer-Encoding
exactly chunked, the factory fails with 501 precisely when no usable
Content-Length accompanies it — the field is absent, or parses to a
negative value; a parseable non-negative Content-Length takes precedence
over the chunked declaration. -/
theorem readerFromReq_chunked_501 (req : HTTPReq)
    (hm1 : req.method ≠ str2b "GET") (hm2 : req.method ≠ str2b "HEAD")
    (hc : chunkedTE req.headers = true)
    (hcl : fieldGet clKey req.headers = none ∨
      ∃ v n, fieldGet clKey req.headers = some v ∧ parseDec v = some n ∧ n < 0) :
    readerFromReq req = .error ⟨501, "chunked not implemented"⟩ := by
  have hmethod : ¬ (req.method = str2b "GET" ∨ req.method = str2b "HEAD") := by
    rintro (h | h)
    · exact hm1 h
    · exact hm2 h
  have hcore : ∀ n : Int, n < 0 →
      readerFromReqCore req n = .error ⟨501, "chunked not implemented"⟩ := by
    intro n hn
    unfold readerFromReqCore
    rw [if_neg (by rintro ⟨h, -⟩; exact hmethod h)]
    simp only [if_neg hmethod]
    rw [if_neg (by omega), if_pos hc]
  rcases hcl with hcl | ⟨v, n, hv, hp, hn⟩
  · unfold readerFromReq
    rw [hcl]
    exact hcore (-1) (by norm_num)
  · unfold readerFromReq
    simp only [hv, hp]
    exact hcore n hn

/-- Witness for the amended C3: POST with chunked encoding and no
Content-Length field yields 501. -/
theorem readerFromReq_chunked_501_witness :
    ((str2b "POST" ≠ str2b "GET") ∧ (str2b "POST" ≠ str2b "HEAD") ∧
      chunkedTE [str2b "Transfer-Encoding: chunked"] = true ∧
      fieldGet clKey [str2b "Transfer-Encoding: chunked"] = none) ∧
    readerFromReq ⟨str2b "POST", str2b "/", str2b "1.1",
        [str2b "Transfer-Encoding: chunked"]⟩ =
      .error ⟨501, "chunked not implemented"⟩ :=
  ⟨⟨by decide, by decide, by decide, by decide⟩,
    readerFromReq_chunked_501
      ⟨str2b "POST", str2b "/", str2b "1.1", [str2b "Transfer-Encoding: chunked"]⟩
      (by decide) (by decide) (by decide) (Or.inl (by decide))⟩

/-- Counterexample to C4 as stated: a negative Content-Length on a POST is
not rejected with 400 — parseInt accepts it, so the factory falls through
to the 501 unknown-body-type branch instead. -/
theorem readerFromReq_negative_length_501 :
    readerFromReq ⟨str2b "POST", str2b "/", str2b "1.1", [str2b "Content-Length: -5"]⟩ =
      .error ⟨501, "unknown body type"⟩ := by rfl

/-- Claim C4 (amended): a Content-Length field fails with 400 exactly in
the cases where parseInt yields NaN — no digit after optional whitespace
and sign.  A negative value is accepted by the parse (and later yields a
501, not a 400), and a value with a digit prefix followed by junk is
accepted with the prefix as the length. -/
theorem readerFromReq_nan_400 (req : HTTPReq) (v : Bytes)
    (hcl : fieldGet clKey req.headers = some v) (hnan : parseDec v = none) :
    readerFromReq req = .error ⟨400, "bad Content-Length"⟩ := by
  unfold readerFromReq
  simp only [hcl, hnan]

/-- Witness for the amended C4: Content-Length abc on a POST yields 400. -/
theorem readerFromReq_nan_400_witness :
    (fieldGet clKey [str2b "Content-Length: abc"] = some (str2b "abc") ∧
      parseDec (str2b "abc") = none) ∧
    readerFromReq ⟨str2b "POST", str2b "/", str2b "1.1", [str2b "Content-Length: abc"]⟩ =
      .error ⟨400, "bad Content-Length"⟩ :=
  ⟨⟨by decide, by decide⟩,
    readerFromReq_nan_400
      ⟨str2b "POST", str2b "/", str2b "1.1", [str2b "Content-Length: abc"]⟩
      (str2b "abc") (by decide) (by decide)⟩

/-- Counterexample to C8 as stated: a GET with Content-Length abc declares
neither a positive Content-Length nor chunked encoding, so the claim
promises an immediate empty body stream; the code instead fails with 400
at the Content-Length parse. -/
theorem readerFromReq_get_nan_400 :
    readerFromReq ⟨str2b "GET", str2b "/", str2b "1.1", [str2b "Content-Length: abc"]⟩ =
      .error ⟨400, "bad Content-Length"⟩ := by rfl

/-- Claim C8 (amended): for a GET or HEAD request the factory fails with
400 when the request declares a Content-Length parsing to a positive
value, or an unparseable (NaN) Content-Length, or chunked encoding;
otherwise — no Content-Length field, or one parsing to a non-positive
value, and no chunked declaration — the effective length is forced to 0
and the returned stream answers its very first pull with an empty chunk
while leaving the buffer and the transport untouched (zero reads). -/
theorem readerFromReq_bodyless (req : HTTPReq)
    (hm : req.method = str2b "GET" ∨ req.method = str2b "HEAD") :
    ((∃ v n, fieldGet clKey req.headers = some v ∧ parseDec v = some n ∧ 0 < n) ∨
      (∃ v, fieldGet clKey req.headers = some v ∧ parseDec v = none) ∨
      chunkedTE req.headers = true →
      errCode (readerFromReq req) = some 400) ∧
    ((fieldGet clKey req.headers = none ∨
      ∃ v n, fieldGet clKey req.headers = some v ∧ parseDec v = some n ∧ n ≤ 0) →
      chunkedTE req.headers = false →
      readerFromReq req = .ok (readerFromConLength 0) ∧
      ∀ (buf : DynBuf) (incoming : List Bytes),
        clRead (readerFromConLength 0) buf incoming =
          .ok ([], readerFromConLength 0, buf, incoming)) := by
  constructor
  · rintro (⟨v, n, hv, hp, hn⟩ | ⟨v, hv, hp⟩ | hck)
    · unfold readerFromReq
      simp only [hv, hp]
      unfold readerFromReqCore
      rw [if_pos ⟨hm, Or.inl hn⟩]
      rfl
    · unfold readerFromReq
      simp only [hv, hp]
      rfl
    · cases hv : fieldGet clKey req.headers with
      | none =>
        unfold readerFromReq
        simp only [hv]
        unfold readerFromReqCore
        rw [if_pos ⟨hm, Or.inr hck⟩]
        rfl
      | some v =>
        cases hp : parseDec v with
        | none =>
          unfold readerFromReq
          simp only [hv, hp]
          rfl
        | some n =>
          unfold readerFromReq
          simp only [hv, hp]
          unfold readerFromReqCore
          rw [if_pos ⟨hm, Or.inr hck⟩]
          rfl
  · intro hcl hck
    have hcore : ∀ m : Int, m ≤ 0 →
        readerFromReqCore req m = .ok (readerFromConLength 0) := by
      intro m hm0
      unfold readerFromReqCore
      rw [if_neg (by
        rintro ⟨-, (h | h)⟩
        · omega
        · rw [hck] at h; exact Bool.false_ne_true h)]
      simp only [if_pos hm]
      rw [if_pos (by norm_num : (0 : Int) ≤ 0)]
      rfl
    refine ⟨?_, ?_⟩
    · rcases hcl with hcl | ⟨v, n, hv, hp, hn⟩
      · unfold readerFromReq
        simp only [hcl]
        exact hcore (-1) (by norm_num)
      · unfold readerFromReq
        simp only [hv, hp]
        exact hcore n hn
    · intro buf incoming
      rfl

/-- Witness for the amended C8: a GET with no body-related header returns
the zero-length stream whose first pull is the empty chunk. -/
theorem readerFromReq_bodyless_witness :
    ((str2b "GET" = str2b "GET" ∨ str2b "GET" = str2b "HEAD") ∧
      fieldGet clKey ([] : List Bytes) = none ∧
      chunkedTE ([] : List Bytes) = false) ∧
    readerFromReq ⟨str2b "GET", str2b "/", str2b "1.1", []⟩ =
      .ok (readerFromConLength 0) :=
  ⟨⟨Or.inl rfl, by decide, by decide⟩,
    ((readerFromReq_bodyless ⟨str2b "GET", str2b "/", str2b "1.1", []⟩
      (Or.inl rfl)).2 (Or.inl (by decide)) (by decide)).1⟩

/- ==================== PARSER FAILURES (C7) ==================== -/

theorem parseRequestLine_error_code (l : Bytes) (e : HTTPError)
    (h : parseRequestLine l = .error e) : e.code = 400 := by
  unfold parseRequestLine at h
  split at h
  · split at h
    · exact absurd h (by simp)
    · injection h with h2
      rw [← h2]
  · injection h with h2
    rw [← h2]

theorem parseRequestLine_not3 (l : Bytes)
    (h : (splitByte 32 (trimBytes l)).length ≠ 3) :
    parseRequestLine l = .error ⟨400, "bad request line"⟩ := by
  unfold parseRequestLine
  split
  · rename_i m u v heq
    exact absurd (by rw [heq]; rfl) h
  · rfl

theorem parseRequestLine_badVersion (l m u v : Bytes)
    (heq : splitByte 32 (trimBytes l) = [m, u, v])
    (hv : httpSlash.isPrefixOf v = false) :
    parseRequestLine l = .error ⟨400, "bad version"⟩ := by
  unfold parseRequestLine
  simp only [heq]
  rw [if_neg (by rw [hv]; exact Bool.false_ne_true)]

theorem validateHeader_false (h : Bytes)
    (hc : indexOfByte 58 h = none ∨ indexOfByte 58 h = some 0 ∨
      (∃ i, indexOfByte 58 h = some i ∧ i + 1 = h.length) ∨
      (∃ i, indexOfByte 58 h = some i ∧ (h.take i).all isTokenChar = false)) :
    validateHeader h = false := by
  unfold validateHeader
  rcases hc with hc | hc | ⟨i, hc, hi⟩ | ⟨i, hc, hi⟩
  · rw [hc]
  · rw [hc]
    rfl
  · rw [hc]
    show (if i = 0 then false
      else if i + 1 = h.length then false else (h.take i).all isTokenChar) = false
    by_cases h0 : i = 0
    · rw [if_pos h0]
    · rw [if_neg h0, if_pos hi]
  · rw [hc]
    show (if i = 0 then false
      else if i + 1 = h.length then false else (h.take i).all isTokenChar) = false
    by_cases h0 : i = 0
    · rw [if_pos h0]
    · rw [if_neg h0]
      by_cases h1 : i + 1 = h.length
      · rw [if_pos h1]
      · rw [if_neg h1]
        exact hi

theorem collectHeaders_bad (hs : List Bytes)
    (hbad : ∃ h ∈ hs, validateHeader h = false) :
    collectHeaders hs = .error ⟨400, "bad field"⟩ := by
  induction hs with
  | nil =>
    obtain ⟨h, hmem, -⟩ := hbad
    exact absurd hmem (List.not_mem_nil h)
  | cons a t ih =>
    obtain ⟨h, hmem, hb⟩ := hbad
    unfold collectHeaders
    by_cases hv : validateHeader a
    · rw [if_pos hv]
      have hmem2 : h ∈ t := by
        rcases List.mem_cons.mp hmem with rfl | hmem2
        · rw [hv] at hb
          exact absurd hb (by simp)
        · exact hmem2
      rw [ih ⟨h, hmem2, hb⟩]
    · rw [if_neg hv]

/-- Claim C7: parsing a header block fails with a status-400 protocol
error whenever the (trimmed, space-split) request line does not have
exactly three tokens, or it has three but the version token does not
start with HTTP/, or any line in the header range (indices 1 through
length-2 of the CRLF split) lacks a colon, has it at position 0 or as the
last character, or has a name with a character outside the token class. -/
theorem parseHTTPReq_400 (data : Bytes)
    (hbad :
      (splitByte 32 (trimBytes ((splitLines data).headD []))).length ≠ 3 ∨
      (∃ m u v, splitByte 32 (trimBytes ((splitLines data).headD [])) = [m, u, v] ∧
        httpSlash.isPrefixOf v = false) ∨
      (∃ h ∈ ((splitLines data).drop 1).take ((splitLines data).length - 2),
        indexOfByte 58 h = none ∨ indexOfByte 58 h = some 0 ∨
        (∃ i, indexOfByte 58 h = some i ∧ i + 1 = h.length) ∨
        (∃ i, indexOfByte 58 h = some i ∧ (h.take i).all isTokenChar = false))) :
    errCode (parseHTTPReq data) = some 400 := by
  rcases hbad with hbad | ⟨m, u, v, heq, hv⟩ | ⟨h, hmem, hc⟩
  · simp only [parseHTTPReq]
    rw [parseRequestLine_not3 _ hbad]
    rfl
  · simp only [parseHTTPReq]
    rw [parseRequestLine_badVersion _ m u v heq hv]
    rfl
  · cases hpr : parseRequestLine ((splitLines data).headD []) with
    | error e =>
      simp only [parseHTTPReq, hpr]
      show some e.code = some 400
      rw [parseRequestLine_error_code _ _ hpr]
    | ok tup =>
      obtain ⟨m, u, v⟩ := tup
      simp only [parseHTTPReq, hpr]
      rw [collectHeaders_bad _ ⟨h, hmem, validateHeader_false h hc⟩]
      rfl

/-- Witness for C7: a request line with two tokens yields 400. -/
theorem parseHTTPReq_400_witness :
    (splitByte 32 (trimBytes ((splitLines (str2b "GET /\r\n\r\n")).headD [])) ).length ≠ 3 ∧
    errCode (parseHTTPReq (str2b "GET /\r\n\r\n")) = some 400 :=
  ⟨by decide, parseHTTPReq_400 (str2b "GET /\r\n\r\n") (Or.inl (by decide))⟩

/- ==================== SERVER LOOP AND MEMORY READER (C1, C2) ==================== -/

/-- Claim C2 (code bug): the in-memory stream returns its payload on the
first pull as the spec says, but on the second and every later pull it
returns the full payload again instead of an empty chunk — the source
line computing the empty buffer in the `done` case does not return it —
so a consumer that pulls until an empty chunk never terminates on a
non-empty payload. -/
theorem readerFromMemory_repeats :
    (memRead (readerFromMemory (str2b "x"))).1 = str2b "x" ∧
    (memRead (memRead (readerFromMemory (str2b "x"))).2).1 = str2b "x" ∧
    str2b "x" ≠ ([] : Bytes) :=
  ⟨rfl, rfl, by decide⟩

/-- Claim C1 (code bug): the connection loop never writes a response.
First conjunct: every clean run of `serveClient` performs zero transport
writes, because the loop discards the Response produced by `HandleReq`
instead of handing it to the writer.  Second conjunct: the framed-message
path is in fact unreachable — `parseHTTPReq` receives the block up to and
including the full terminator, so the line before the final empty segment
is itself empty and fails header validation, rejecting even a well-formed
GET with 400 bad field. -/
theorem serveClient_never_writes :
    (∀ (fuel : Nat) (buf : DynBuf) (incoming : List Bytes) (ws : List Bytes),
      serveClient fuel buf incoming = .ok ws → ws = []) ∧
    serveClient 4 ⟨[], 0⟩ [str2b "GET / HTTP/1.1\r\n\r\n"] =
      .error ⟨400, "bad field"⟩ := by
  constructor
  · intro fuel
    induction fuel with
    | zero =>
      intro buf incoming ws h
      injection h with h2
      exact h2.symm
    | succ f ih =>
      intro buf incoming ws h
      unfold serveClient at h
      split at h
      · exact absurd h (by simp)
      · dsimp only at h
        split at h
        · injection h with h2
          exact h2.symm
        · split at h
          · exact absurd h (by simp)
          · exact ih _ _ _ h
      · split at h
        · exact absurd h (by simp)
        · exact ih _ _ _ h
  · rfl

/-- Witness for C1: the empty connection runs cleanly and, by the
theorem, its write trace is empty. -/
theorem serveClient_never_writes_witness :
    serveClient 1 ⟨[], 0⟩ [] = .ok [] ∧ ([] : List Bytes) = [] :=
  ⟨rfl, serveClient_never_writes.1 1 ⟨[], 0⟩ [] [] rfl⟩
